import Mathlib

/-!
Verification of the schema walker and reference resolver of go-valkyrie/odin.

The development shallowly embeds `pkg/schema/schema.go` (the schema walker and
declaration scanner) and `pkg/docs/resolve.go` (the reference resolver).  CUE
values are modelled by the observations the Go code makes of them: attributes,
doc comments, structural kind, default value, expression decomposition,
reference path, and the three field iterators (regular fields, pattern
constraints, definitions).  Go strings are Lean strings; the handful of Go
string-library functions used by the code are re-implemented over the
underlying character lists so that they compute.
-/

/-! ## Go string library operations -/

/-- ASCII lower-casing of one character, as `strings.ToLower` does for ASCII input. -/
def charLower (c : Char) : Char :=
  if 'A' ≤ c ∧ c ≤ 'Z' then Char.ofNat (c.toNat + 32) else c

/-- Model of `strings.ToLower` (ASCII range). -/
def strLower (s : String) : String := ⟨s.data.map charLower⟩

/-- Model of `strings.EqualFold` (ASCII range): equality up to case. -/
def goEqualFold (a b : String) : Bool := strLower a == strLower b

/-- Model of `strings.HasPrefix`. -/
def goHasPre (s pre : String) : Bool := pre.data.isPrefixOf s.data

/-- Model of `strings.TrimPrefix(s, "#")`: drop a single leading `#` when present. -/
def trimHash (s : String) : String := if goHasPre s "#" then ⟨s.data.drop 1⟩ else s

/-- Characters treated as white space by `strings.TrimSpace` on ASCII input. -/
def isSpaceChar (c : Char) : Bool := c == ' ' || c == '\t' || c == '\n' || c == '\r'

/-- Model of `strings.TrimSpace` (ASCII white space). -/
def goTrimSpace (s : String) : String :=
  ⟨((s.data.dropWhile isSpaceChar).reverse.dropWhile isSpaceChar).reverse⟩

/-- Model of `strings.TrimRight(s, "?!")`. -/
def trimMarks (s : String) : String :=
  ⟨(s.data.reverse.dropWhile (fun c => c == '?' || c == '!')).reverse⟩

/-- Model of `strings.Join` with a separator. -/
def goJoin (sep : String) : List String → String
  | [] => ""
  | [s] => s
  | s :: rest => s ++ sep ++ goJoin sep rest

/-- Splits the character list around the first occurrence of `pat`,
returning the parts before and after it. -/
def findSub (pat : List Char) : List Char → Option (List Char × List Char)
  | [] => if pat.isEmpty then some ([], []) else none
  | c :: rest =>
    if pat.isPrefixOf (c :: rest) then some ([], (c :: rest).drop pat.length)
    else
      match findSub pat rest with
      | some (b, a) => some (c :: b, a)
      | none => none

/-- Model of `strings.Contains`. -/
def goContains (s sub : String) : Bool := (findSub sub.data s.data).isSome

/-- Model of `strings.SplitN(s, sep, 2)`: the part before the first occurrence
of `sep` and the remainder after it.  When `sep` does not occur the second
component is empty (callers in the source guard with `strings.Contains`). -/
def goSplitOnce (s sep : String) : String × String :=
  match findSub sep.data s.data with
  | some (b, a) => (⟨b⟩, ⟨a⟩)
  | none => (s, "")

/-- Index (in characters) of the last occurrence of `c`, as
`strings.LastIndex` for one-character ASCII needles. -/
def lastIdxAux (c : Char) : List Char → Nat → Option Nat → Option Nat
  | [], _, acc => acc
  | x :: r, i, acc => lastIdxAux c r (i + 1) (if x == c then some i else acc)

/-- Model of `strings.LastIndex(s, c)` for a single character `c`;
`none` plays the role of Go result `-1`. -/
def goLastIndexChar (s : String) (c : Char) : Option Nat :=
  lastIdxAux c s.data 0 none

/-- Character-indexed prefix of a string, modelling Go slicing `s[:n]`. -/
def strTake (s : String) (n : Nat) : String := ⟨s.data.take n⟩

/-- Character-indexed suffix of a string, modelling Go slicing `s[n:]`. -/
def strDrop (s : String) (n : Nat) : String := ⟨s.data.drop n⟩

/-- Character escaping used by `fmt.Sprintf("%q", s)` for printable ASCII text. -/
def quoteChars : List Char → List Char
  | [] => ['"']
  | c :: r =>
    if c == '"' then '\\' :: '"' :: quoteChars r
    else if c == '\\' then '\\' :: '\\' :: quoteChars r
    else c :: quoteChars r

/-- Model of `fmt.Sprintf("%q", s)` for printable ASCII strings. -/
def goQuote (s : String) : String := ⟨'"' :: quoteChars s.data⟩

/-- Model of `fmt.Sprintf("%v", b)` for a boolean. -/
def goBoolStr (b : Bool) : String := if b then "true" else "false"

/-- Decimal digits of a natural number, most significant first. -/
def natDigitsAux : Nat → List Char → List Char
  | n, acc =>
    if n < 10 then Nat.digitChar n :: acc
    else natDigitsAux (n / 10) (Nat.digitChar (n % 10) :: acc)
termination_by n _ => n
decreasing_by exact Nat.div_lt_self (by omega) (by omega)

/-- Decimal rendering of a natural number. -/
def natDigits (n : Nat) : List Char := natDigitsAux n []

/-- Model of `fmt.Sprintf("%d", i)` for a 64-bit integer. -/
def goIntStr (i : Int) : String :=
  if i < 0 then ⟨'-' :: natDigits i.natAbs⟩ else ⟨natDigits i.natAbs⟩

/-! ## The CUE value model

`CueValue` records exactly the observations `pkg/schema/schema.go` makes of a
`cue.Value`.  The three iterator fields model `value.Fields` under the option
sets `cue.Optional(true)`, `cue.Patterns(true)` and `cue.Definitions(true)`
respectively; `none` models an iterator error. -/

/-- Structural kind of a value, `cue.Value.IncompleteKind`.  `other` covers
the remaining kind masks; its argument is the mask's `String()` rendering. -/
inductive CueKind where
  | string | bool | int | float | number | bytes | null | struct | list
  | bottom
  | other (repr : String)
deriving DecidableEq, Repr

/-- The `String()` rendering of a kind, used by `formatKind`'s default case. -/
def cueKindString : CueKind → String
  | .string => "string"
  | .bool => "bool"
  | .int => "int"
  | .float => "float"
  | .number => "number"
  | .bytes => "bytes"
  | .null => "null"
  | .struct => "struct"
  | .list => "list"
  | .bottom => "_|_"
  | .other r => r

/-- Top-level operator of a value expression, `cue.Value.Expr`.  Only the
operators the walker distinguishes are named. -/
inductive CueOp where
  | noOp | orOp | andOp | otherOp
deriving DecidableEq, Repr

/-- One attribute, e.g. `@odin(hidden)`: a tag name and positional string
arguments (`cue.Attribute.Name` / `cue.Attribute.String`). -/
structure Attr where
  name : String
  args : List String
deriving DecidableEq, Repr

/-- One selector of a reference path: its `String()` form and whether
`IsDefinition()` holds. -/
structure RefSel where
  selStr : String
  isDef : Bool
deriving DecidableEq, Repr

/-- Concrete literal readouts of a value: `String()`, `Bool()`, `Int64()`,
the `%g` rendering of `Float64()` when it succeeds, and the `fmt.Sprint`
fallback rendering. -/
structure LitData where
  strVal : Option String
  boolVal : Option Bool
  intVal : Option Int
  floatRepr : Option String
  sprint : String
deriving DecidableEq, Repr

/-- The non-recursive observations of a value. -/
structure VMeta where
  attrs : List Attr
  docs : List String
  kind : CueKind
  op : CueOp
  refPathStr : String
  refSels : List RefSel
  lit : LitData
deriving DecidableEq, Repr

/-- Field-selector data seen through an iterator: `Selector().String()`,
`IsOptional()` and the selector constraint type. -/
inductive ConstraintKind where
  | ordinary | required | pattern
deriving DecidableEq, Repr

/-- The per-field iterator data that does not involve the field's value. -/
structure FMeta where
  selString : String
  isOpt : Bool
  constraint : ConstraintKind
deriving DecidableEq, Repr

mutual
/-- A CUE value as observed by the walker: metadata, the default value,
the expression arguments, and the three field iterators. -/
inductive CueValue : Type where
  | mk (meta : VMeta) (dflt : Option CueValue) (exprArgs : List CueValue)
       (fieldsOpt : Option (List CueField))
       (patternsOpt : Option (List CueField))
       (defsOpt : Option (List CueField)) : CueValue

/-- One entry of a field iterator: selector data plus the field's value. -/
inductive CueField : Type where
  | mk (fmeta : FMeta) (value : CueValue) : CueField
end

def CueValue.meta : CueValue → VMeta
  | .mk m _ _ _ _ _ => m

def CueValue.dflt : CueValue → Option CueValue
  | .mk _ d _ _ _ _ => d

def CueValue.exprArgs : CueValue → List CueValue
  | .mk _ _ ea _ _ _ => ea

def CueValue.fieldsOpt : CueValue → Option (List CueField)
  | .mk _ _ _ fo _ _ => fo

def CueValue.patternsOpt : CueValue → Option (List CueField)
  | .mk _ _ _ _ po _ => po

def CueValue.defsOpt : CueValue → Option (List CueField)
  | .mk _ _ _ _ _ dfo => dfo

def CueValue.kind (v : CueValue) : CueKind := v.meta.kind

def CueValue.op (v : CueValue) : CueOp := v.meta.op

def CueValue.attrs (v : CueValue) : List Attr := v.meta.attrs

def CueValue.docs (v : CueValue) : List String := v.meta.docs

def CueValue.refPathStr (v : CueValue) : String := v.meta.refPathStr

def CueValue.refSels (v : CueValue) : List RefSel := v.meta.refSels

def CueValue.lit (v : CueValue) : LitData := v.meta.lit

def CueField.fmeta : CueField → FMeta
  | .mk fm _ => fm

def CueField.value : CueField → CueValue
  | .mk _ v => v

def CueField.selString (f : CueField) : String := f.fmeta.selString

def CueField.isOpt (f : CueField) : Bool := f.fmeta.isOpt

def CueField.constraint (f : CueField) : ConstraintKind := f.fmeta.constraint

/-! ## The documentation tree (`SchemaField`, `Declaration`) -/

/-- One node of the documentation tree, `schema.SchemaField`. -/
inductive SchemaField : Type where
  | mk (name doc type : String) (optional required isPattern : Bool)
       (default : String) (children : List SchemaField) : SchemaField

def SchemaField.name : SchemaField → String
  | .mk n _ _ _ _ _ _ _ => n

def SchemaField.doc : SchemaField → String
  | .mk _ d _ _ _ _ _ _ => d

def SchemaField.type : SchemaField → String
  | .mk _ _ t _ _ _ _ _ => t

def SchemaField.optional : SchemaField → Bool
  | .mk _ _ _ o _ _ _ _ => o

def SchemaField.required : SchemaField → Bool
  | .mk _ _ _ _ r _ _ _ => r

def SchemaField.isPattern : SchemaField → Bool
  | .mk _ _ _ _ _ p _ _ => p

def SchemaField.default : SchemaField → String
  | .mk _ _ _ _ _ _ df _ => df

def SchemaField.children : SchemaField → List SchemaField
  | .mk _ _ _ _ _ _ _ cs => cs

def SchemaField.setType : SchemaField → String → SchemaField
  | .mk n d _ o r p df cs, t => .mk n d t o r p df cs

def SchemaField.setDefault : SchemaField → String → SchemaField
  | .mk n d t o r p _ cs, df => .mk n d t o r p df cs

def SchemaField.setChildren : SchemaField → List SchemaField → SchemaField
  | .mk n d t o r p df _, cs => .mk n d t o r p df cs

/-- Category of a root-level declaration, `schema.DeclarationCategory`. -/
inductive DeclarationCategory where
  | ref | ext | other
deriving DecidableEq, Repr

/-- A root-level declaration surfaced by the scanner, `schema.Declaration`. -/
structure Declaration where
  name : String
  doc : String
  category : DeclarationCategory
  type : String
  children : List SchemaField

/-! ## Formatting helpers of the walker -/

/-- The synthetic open-struct marker the walker uses for structs without
visible children. -/
def openStructMarker : String := "\x7b...\x7d"

/-- `schema.formatKind`: display name of a primitive kind, falling back to
the kind's own rendering. -/
def formatKind (k : CueKind) : String :=
  match k with
  | .string => "string"
  | .bool => "bool"
  | .int => "int"
  | .float => "float"
  | .number => "number"
  | .bytes => "bytes"
  | .null => "null"
  | _ => cueKindString k

/-- `schema.formatValue`: literal rendering of a concrete value, falling back
to the `fmt.Sprint` rendering when the concrete readout fails. -/
def formatValue (v : CueValue) : String :=
  match v.kind with
  | .string => match v.lit.strVal with | some s => goQuote s | none => v.lit.sprint
  | .bool => match v.lit.boolVal with | some b => goBoolStr b | none => v.lit.sprint
  | .int => match v.lit.intVal with | some i => goIntStr i | none => v.lit.sprint
  | .float => match v.lit.floatRepr with | some r => r | none => v.lit.sprint
  | _ => v.lit.sprint

/-- `schema.formatDisjunction`: branches rendered and joined with a bar. -/
def formatDisjunction (args : List CueValue) : String :=
  goJoin " | " (args.map formatValue)

/-- `schema.formatListType`. -/
def formatListType (_ : CueValue) : String := "[...]"

/-- `schema.hasOdinHidden`: does any value attribute read `@odin(hidden)`. -/
def hasOdinHidden (v : CueValue) : Bool :=
  v.attrs.any fun a => a.name == "odin" && a.args.head? == some "hidden"

/-- First clause of `schema.definitionRefName`: a value whose own reference
path ends in a definition selector. -/
def refBase (v : CueValue) : Option String :=
  if v.refPathStr ≠ "" then
    match v.refSels.getLast? with
    | some s => if s.isDef then some s.selStr else none
    | none => none
  else none

/-- Second clause of `schema.definitionRefName`: first unification operand
whose reference path ends in a definition selector. -/
def findDefRefInArgs : List CueValue → Option String
  | [] => none
  | a :: rest =>
    match refBase a with
    | some n => some n
    | none => findDefRefInArgs rest

/-- `schema.definitionRefName`: the definition name a struct value refers to,
through a pure reference or through a unification with one. -/
def definitionRefName (v : CueValue) : Option String :=
  match refBase v with
  | some n => some n
  | none => if v.op == .andOp then findDefRefInArgs v.exprArgs else none

/-- Doc handling shared by `fieldFromIter` and `WalkDeclarations`:
comment-group texts joined by newlines and trimmed. -/
def joinDocs (docs : List String) : String :=
  match docs with
  | [] => ""
  | _ => goTrimSpace (goJoin "\n" docs)

/-! ## The schema walker -/

mutual
/-- `schema.walkFields`: iterate the regular fields, then append the pattern
constraints; an iterator error on the first pass yields the empty result. -/
def walkFields (v : CueValue) (expand : Bool) : List SchemaField :=
  match v with
  | .mk _ _ _ none _ _ => []
  | .mk _ _ _ (some fs) po _ =>
    walkRegular fs expand ++
      (match po with
       | none => []
       | some ps => walkPatterns ps expand)
termination_by (sizeOf v, 0)

/-- The first loop of `schema.walkFields`: regular fields, skipping
`@odin(hidden)` ones. -/
def walkRegular (fs : List CueField) (expand : Bool) : List SchemaField :=
  match fs with
  | [] => []
  | fd :: rest =>
    if hasOdinHidden fd.value then walkRegular rest expand
    else fieldFromIter fd expand :: walkRegular rest expand
termination_by (sizeOf fs, 3)

/-- The second loop of `schema.walkFields`: pattern constraints, skipping
`@odin(hidden)` ones. -/
def walkPatterns (fs : List CueField) (expand : Bool) : List SchemaField :=
  match fs with
  | [] => []
  | .mk fm v :: rest =>
    if fm.constraint = .pattern then
      if hasOdinHidden v then walkPatterns rest expand
      else
        populateFieldValue (.mk fm.selString "" "" false false true "" []) v expand ::
          walkPatterns rest expand
    else walkPatterns rest expand
termination_by (sizeOf fs, 3)

/-- `schema.fieldFromIter`: build the node skeleton (name with optionality
markers stripped, flags, docs) and fill in the value description. -/
def fieldFromIter (fd : CueField) (expand : Bool) : SchemaField :=
  match fd with
  | .mk fm v =>
    populateFieldValue
      (.mk (trimMarks fm.selString) (joinDocs v.docs) "" fm.isOpt
        (fm.constraint = .required) false "" [])
      v expand
termination_by (sizeOf fd, 2)

/-- `schema.populateFieldValue`: default, then disjunction, collapsed
reference, struct recursion, list, or primitive kind — in source order. -/
def populateFieldValue (f : SchemaField) (v : CueValue) (expand : Bool) : SchemaField :=
  let f1 :=
    match v.dflt with
    | some d => f.setDefault (formatValue d)
    | none => f
  if v.op == .orOp && !v.exprArgs.isEmpty then
    f1.setType (formatDisjunction v.exprArgs)
  else if !expand && v.kind == .struct && (definitionRefName v).isSome then
    f1.setType ((definitionRefName v).getD "")
  else if v.kind == .struct then
    let children := walkFields v expand
    if !children.isEmpty then f1.setChildren children
    else f1.setType openStructMarker
  else if v.kind == .list then
    f1.setType (formatListType v)
  else
    f1.setType (formatKind v.kind)
termination_by (sizeOf v, 1)
end

/-- `schema.WalkSchema` with the options already reduced to the `expand`
flag (`WithExpand`); the default option set has `expand = false`. -/
def WalkSchema (value : CueValue) (expand : Bool) : List SchemaField :=
  walkFields value expand

/-! ## The declaration scanner -/

/-- The attribute search inside `schema.WalkDeclarations`: first value
attribute named `odin`. -/
def findOdin (attrs : List Attr) : Option Attr :=
  attrs.find? fun a => a.name == "odin"

/-- Category assignment of `schema.WalkDeclarations`: the attribute's first
argument, `none` meaning the declaration is hidden and skipped. -/
def declCategory (a : Attr) : Option DeclarationCategory :=
  match a.args.head? with
  | none => some .other
  | some "ref" => some .ref
  | some "ext" => some .ext
  | some "hidden" => none
  | some _ => some .other

/-- Type/children assignment of `schema.WalkDeclarations`, mirroring the
struct / list / primitive branches of its loop body. -/
def declBody (d : Declaration) (v : CueValue) (expand : Bool) : Declaration :=
  if v.kind == .struct then
    if !expand && (definitionRefName v).isSome then
      { d with type := (definitionRefName v).getD "" }
    else
      let children := walkFields v expand
      if !children.isEmpty then { d with children := children, type := openStructMarker }
      else { d with type := openStructMarker }
  else if v.kind == .list then { d with type := "[...]" }
  else { d with type := formatKind v.kind }

/-- One iteration of the `schema.WalkDeclarations` loop: skip private `_#`
names, require an `@odin` attribute, skip the `hidden` category, then build
the declaration. -/
def walkDecl (fd : CueField) (expand : Bool) : Option Declaration :=
  let name := fd.selString
  if goHasPre name "_#" then none
  else
    match findOdin fd.value.attrs with
    | none => none
    | some a =>
      match declCategory a with
      | none => none
      | some cat =>
        some (declBody
          { name := name, doc := joinDocs fd.value.docs, category := cat,
            type := "", children := [] }
          fd.value expand)

/-- The `schema.WalkDeclarations` loop over the definitions iterator. -/
def walkDecls : List CueField → Bool → List Declaration
  | [], _ => []
  | fd :: rest, expand =>
    match walkDecl fd expand with
    | none => walkDecls rest expand
    | some d => d :: walkDecls rest expand

/-- `schema.WalkDeclarations` with the options reduced to the `expand` flag;
an iterator error yields the empty result. -/
def WalkDeclarations (value : CueValue) (expand : Bool) : List Declaration :=
  match value.defsOpt with
  | none => []
  | some ds => walkDecls ds expand

/-! ## The reference resolver (`pkg/docs/resolve.go`) -/

/-- `model.ComponentTemplate` restricted to the fields the resolver reads. -/
structure ComponentTemplate where
  Package : String
  Name : String
  Module : String
  Version : String
deriving DecidableEq, Repr

/-- `docs.shorthandName`: last path segment of an import path with any
trailing `@vN` suffix stripped. -/
def shorthandName (pkg : String) : String :=
  let p :=
    match goLastIndexChar pkg '@' with
    | some i => strTake pkg i
    | none => pkg
  match goLastIndexChar p '/' with
  | some i => strDrop p (i + 1)
  | none => p

/-- `docs.displayName`: `shorthand.Definition` display form of a template. -/
def displayName (tmpl : ComponentTemplate) : String :=
  shorthandName tmpl.Package ++ "." ++ trimHash tmpl.Name

/-- `docs.ambiguousError`: the ambiguous-reference error message, each
candidate shown with its owning package. -/
def ambiguousError (reference : String) (ms : List ComponentTemplate) : String :=
  "ambiguous reference " ++ goQuote reference ++ " matches multiple templates:\n  " ++
    goJoin "\n  " (ms.map fun m => displayName m ++ " (" ++ m.Package ++ ")")

/-- The not-found error of resolution step 5, listing every candidate's
display form. -/
def notFoundError (reference : String) (templates : List ComponentTemplate) : String :=
  "no component template matching " ++ goQuote reference ++ "; available: " ++
    goJoin ", " (templates.map displayName)

/-- Step 1 of `docs.ResolveReference`: fully qualified `package:#Definition`
lookup, exact on package (or `package@version`) and name. -/
def fqMatch (reference : String) (templates : List ComponentTemplate) :
    Except String ComponentTemplate :=
  let parts := goSplitOnce reference ":#"
  let pkg := parts.1
  let defName := "#" ++ parts.2
  match templates.find? (fun t => t.Package == pkg && t.Name == defName) with
  | some t => .ok t
  | none =>
    match templates.find? (fun t => (t.Package ++ "@" ++ t.Version) == pkg && t.Name == defName) with
    | some t => .ok t
    | none => .error ("no component template found matching " ++ goQuote reference)

/-- Step 2 candidate list of `docs.ResolveReference`: case-insensitive match
on the definition name with the leading `#` stripped. -/
def defNameMatches (reference : String) (templates : List ComponentTemplate) :
    List ComponentTemplate :=
  templates.filter fun t => goEqualFold (trimHash t.Name) (strLower reference)

/-- Step 3 candidate list of `docs.ResolveReference`: case-insensitive match
on the package shorthand. -/
def pkgShorthandMatches (reference : String) (templates : List ComponentTemplate) :
    List ComponentTemplate :=
  templates.filter fun t => goEqualFold (shorthandName t.Package) (strLower reference)

/-- Step 4 of `docs.ResolveReference`: dotted `package.Definition` lookup,
split on the last dot, first full match wins. -/
def dotMatch (reference : String) (templates : List ComponentTemplate) :
    Option ComponentTemplate :=
  match goLastIndexChar reference '.' with
  | none => none
  | some dotIdx =>
    let pkgPart := strLower (strTake reference dotIdx)
    let defPart := strLower (strDrop reference (dotIdx + 1))
    templates.find? fun t =>
      strLower (shorthandName t.Package) == pkgPart &&
        strLower (trimHash t.Name) == defPart

/-- `docs.ResolveReference`: the ordered matching cascade with its error
reporting priority. -/
def ResolveReference (reference : String) (templates : List ComponentTemplate) :
    Except String ComponentTemplate :=
  if templates.isEmpty then .error "no component templates available"
  else if goContains reference ":#" then fqMatch reference templates
  else
    match defNameMatches reference templates with
    | [t] => .ok t
    | _ =>
      match pkgShorthandMatches reference templates with
      | [t] => .ok t
      | _ =>
        match dotMatch reference templates with
        | some t => .ok t
        | none =>
          if 1 < (defNameMatches reference templates).length then
            .error (ambiguousError reference (defNameMatches reference templates))
          else if 1 < (pkgShorthandMatches reference templates).length then
            .error (ambiguousError reference (pkgShorthandMatches reference templates))
          else .error (notFoundError reference templates)

/-! ## Auxiliary predicates for the stated properties -/

/-- Well-formedness of the non-recursive readouts of a value: the external
renderings (`fmt.Sprint`, the selector strings, the kind rendering, a
successful float rendering) are never the empty string. -/
def wfMeta (m : VMeta) : Bool :=
  (m.lit.sprint != "") &&
    (match m.lit.floatRepr with | some r => r != "" | none => true) &&
    (m.refSels.all fun s => s.selStr != "") &&
    (match m.kind with | .other r => r != "" | _ => true)

mutual
/-- Recursive well-formedness of a value: `wfMeta` at every node. -/
def wfVal : CueValue → Bool
  | .mk m d ea fo po dfo =>
    wfMeta m && wfValOpt d && wfValList ea && wfFieldsOpt fo && wfFieldsOpt po &&
      wfFieldsOpt dfo

/-- Well-formedness of an optional value. -/
def wfValOpt : Option CueValue → Bool
  | none => true
  | some v => wfVal v

/-- Well-formedness of a value list. -/
def wfValList : List CueValue → Bool
  | [] => true
  | v :: r => wfVal v && wfValList r

/-- Well-formedness of an optional field list. -/
def wfFieldsOpt : Option (List CueField) → Bool
  | none => true
  | some fs => wfFields fs

/-- Well-formedness of a field list. -/
def wfFields : List CueField → Bool
  | [] => true
  | .mk _ v :: r => wfVal v && wfFields r
end

mutual
/-- The leaf-or-children invariant of one `SchemaField` node: exactly one of
a non-empty `type` string and a non-empty `children` list, recursively. -/
def fieldOk : SchemaField → Bool
  | .mk _ _ ty _ _ _ _ cs => (cs.isEmpty != (ty == "")) && fieldsOk cs

/-- The leaf-or-children invariant over a list of nodes. -/
def fieldsOk : List SchemaField → Bool
  | [] => true
  | f :: r => fieldOk f && fieldsOk r
end

mutual
/-- Removal of every `@odin(hidden)` entry from all field iterators of a
value, at every depth. -/
def eraseHidden : CueValue → CueValue
  | .mk m d ea fo po dfo =>
    .mk m (eraseHiddenOpt d) (eraseHiddenArgs ea) (eraseHiddenFieldsOpt fo)
      (eraseHiddenFieldsOpt po) (eraseHiddenFieldsOpt dfo)

/-- `eraseHidden` through an optional value. -/
def eraseHiddenOpt : Option CueValue → Option CueValue
  | none => none
  | some v => some (eraseHidden v)

/-- `eraseHidden` through a value list. -/
def eraseHiddenArgs : List CueValue → List CueValue
  | [] => []
  | v :: r => eraseHidden v :: eraseHiddenArgs r

/-- `eraseHidden` through an optional field list. -/
def eraseHiddenFieldsOpt : Option (List CueField) → Option (List CueField)
  | none => none
  | some fs => some (eraseHiddenFields fs)

/-- `eraseHidden` through a field list: hidden entries are dropped, the
values of the remaining entries are erased recursively. -/
def eraseHiddenFields : List CueField → List CueField
  | [] => []
  | .mk fm v :: r =>
    if hasOdinHidden v then eraseHiddenFields r
    else .mk fm (eraseHidden v) :: eraseHiddenFields r
end

/-- The primitive structural kinds, the ones `formatKind` names explicitly. -/
def isPrimitiveKind : CueKind → Bool
  | .string | .bool | .int | .float | .number | .bytes | .null => true
  | _ => false

/-! ## Concrete fixtures used as witnesses and counterexamples -/

/-- A plain `string`-kind leaf value with no fields. -/
def strKindVal : CueValue :=
  .mk ⟨[], [], .string, .noOp, "", [], ⟨none, none, none, none, "string"⟩⟩ none [] none none none

/-- A concrete string literal branch of a disjunction. -/
def strBranch (s : String) : CueValue :=
  .mk ⟨[], [], .string, .noOp, "", [], ⟨some s, none, none, none, "lit"⟩⟩ none [] none none none

/-- The disjunction value of the spec example, three concrete string branches. -/
def envVal : CueValue :=
  .mk ⟨[], [], .string, .orOp, "", [], ⟨none, none, none, none, "env"⟩⟩ none
    [strBranch "dev", strBranch "staging", strBranch "prod"] none none none

/-- The spec example field carrying `envVal`. -/
def envField : CueField := .mk ⟨"env", false, .ordinary⟩ envVal

/-- Resolver candidates of the spec scenario. -/
def tmplWidgetA : ComponentTemplate := ⟨"pkgA", "#Widget", "", ""⟩

/-- Second Widget candidate of the spec scenario. -/
def tmplWidgetB : ComponentTemplate := ⟨"pkgB", "#Widget", "", ""⟩

/-- The Gadget candidate of the spec scenario. -/
def tmplGadgetC : ComponentTemplate := ⟨"pkgC", "#Gadget", "", ""⟩

/-- The candidate list `{pkgA:#Widget, pkgB:#Widget, pkgC:#Gadget}`. -/
def resolverCandidates : List ComponentTemplate := [tmplWidgetA, tmplWidgetB, tmplGadgetC]

/-- The bare `string` branch of a defaulted boolean disjunction rendering. -/
def boolBareBranch : CueValue :=
  .mk ⟨[], [], .bool, .noOp, "", [], ⟨none, none, none, none, "bool"⟩⟩ none [] none none none

/-- The concrete `true` branch and default of `bool | *true`. -/
def trueBranch : CueValue :=
  .mk ⟨[], [], .bool, .noOp, "", [], ⟨none, some true, none, none, "true"⟩⟩ none [] none none none

/-- The value of a field `enabled: bool | *true`: boolean incomplete kind,
a concrete default, and a disjunction expression. -/
def enabledVal : CueValue :=
  .mk ⟨[], [], .bool, .orOp, "", [], ⟨none, none, none, none, "bool|*true"⟩⟩
    (some trueBranch) [boolBareBranch, trueBranch] none none none

/-- The field `enabled: bool | *true`. -/
def enabledField : CueField := .mk ⟨"enabled", false, .ordinary⟩ enabledVal

/-- The `name: string` field of the `_#SecretStoreRef` test definition. -/
def secretStoreNameFld : CueField := .mk ⟨"name", false, .ordinary⟩ strKindVal

/-- The `kind: string | *"SecretStore"` field of `_#SecretStoreRef`. -/
def secretStoreKindFld : CueField :=
  .mk ⟨"kind", false, .ordinary⟩
    (.mk ⟨[], [], .string, .orOp, "", [], ⟨none, none, none, none, "k"⟩⟩
      (some (strBranch "SecretStore"))
      [.mk ⟨[], [], .string, .noOp, "", [], ⟨none, none, none, none, "string"⟩⟩ none [] none none none,
        strBranch "SecretStore"]
      none none none)

/-- A field value `forcedRef: _#SecretStoreRef @odin(expand)`: a pure
reference to a definition, carrying the force-expand attribute. -/
def forcedRefVal : CueValue :=
  .mk ⟨[⟨"odin", ["expand"]⟩], [], .struct, .noOp, "_#SecretStoreRef",
      [⟨"_#SecretStoreRef", true⟩], ⟨none, none, none, none, "ref"⟩⟩
    none [] (some [secretStoreNameFld, secretStoreKindFld])
    (some [secretStoreNameFld, secretStoreKindFld]) none

/-- A config struct holding only the annotated `forcedRef` field. -/
def c1Config : CueValue :=
  .mk ⟨[], [], .struct, .noOp, "", [], ⟨none, none, none, none, "cfg"⟩⟩ none []
    (some [.mk ⟨"forcedRef", false, .ordinary⟩ forcedRefVal]) (some []) none

/-- A declaration value `#forcedDecl: _#SecretStoreRef & {...}` carrying both
`@odin(ref)` and `@odin(expand)`. -/
def forcedDeclVal : CueValue :=
  .mk ⟨[⟨"odin", ["ref"]⟩, ⟨"odin", ["expand"]⟩], [], .struct, .andOp, "", [],
      ⟨none, none, none, none, "decl"⟩⟩
    none
    [.mk ⟨[], [], .struct, .noOp, "_#SecretStoreRef", [⟨"_#SecretStoreRef", true⟩],
        ⟨none, none, none, none, "ref"⟩⟩ none [] none none none]
    (some [secretStoreNameFld, secretStoreKindFld])
    (some []) none

/-- A package value whose definitions iterator yields only `#forcedDecl`. -/
def c1Component : CueValue :=
  .mk ⟨[], [], .struct, .noOp, "", [], ⟨none, none, none, none, "comp"⟩⟩ none []
    (some []) (some []) (some [.mk ⟨"#forcedDecl", false, .ordinary⟩ forcedDeclVal])

/-- A private-named root declaration `_#Secret` that does carry `@odin(ref)`. -/
def c2DeclVal : CueValue :=
  .mk ⟨[⟨"odin", ["ref"]⟩], [], .struct, .noOp, "", [], ⟨none, none, none, none, "d"⟩⟩
    none [] (some [secretStoreNameFld]) (some []) none

/-- A package value whose only root declaration is the annotated `_#Secret`. -/
def c2Pkg : CueValue :=
  .mk ⟨[], [], .struct, .noOp, "", [], ⟨none, none, none, none, "p"⟩⟩ none []
    (some []) (some []) (some [.mk ⟨"_#Secret", false, .ordinary⟩ c2DeclVal])

/-- A value that cannot be iterated as a struct: its regular-fields iterator
reports an error (`none`). -/
def notIterableVal : CueValue :=
  .mk ⟨[], [], .string, .noOp, "", [], ⟨none, none, none, none, "s"⟩⟩ none [] none none none

/-- An inner `name: string` field for the unification fixture. -/
def unifiedInnerFld : CueField := .mk ⟨"name", false, .ordinary⟩ strKindVal

/-- A struct value of the shape `_#Foo & { name: string }`: not itself a
reference, but a unification with one. -/
def unifiedVal : CueValue :=
  .mk ⟨[], [], .struct, .andOp, "", [], ⟨none, none, none, none, "u"⟩⟩ none
    [.mk ⟨[], [], .struct, .noOp, "_#Foo", [⟨"_#Foo", true⟩],
        ⟨none, none, none, none, "ref"⟩⟩ none [] none none none,
      .mk ⟨[], [], .struct, .noOp, "", [], ⟨none, none, none, none, "inline"⟩⟩ none []
        (some [unifiedInnerFld]) none none]
    (some [unifiedInnerFld]) (some []) none

/-- The field `store: _#Foo & { name: string }`. -/
def unifiedField : CueField := .mk ⟨"store", false, .ordinary⟩ unifiedVal

/-- A small well-formed struct fixture: one plain field, one hidden field,
one pattern constraint. -/
def wfSampleVal : CueValue :=
  .mk ⟨[], [], .struct, .noOp, "", [], ⟨none, none, none, none, "sample"⟩⟩ none []
    (some [.mk ⟨"name", false, .ordinary⟩ strKindVal,
      .mk ⟨"secret", false, .ordinary⟩
        (.mk ⟨[⟨"odin", ["hidden"]⟩], [], .string, .noOp, "", [],
          ⟨none, none, none, none, "string"⟩⟩ none [] none none none)])
    (some [.mk ⟨"[string]", false, .pattern⟩ strKindVal]) none

/-- A concrete integer literal value `3`. -/
def intThreeVal : CueValue :=
  .mk ⟨[], [], .int, .noOp, "", [], ⟨none, none, some 3, none, "3"⟩⟩ none [] none none none

/-- An `int`-kind value carrying the concrete default `3` and no disjunction. -/
def countVal : CueValue :=
  .mk ⟨[], [], .int, .noOp, "", [], ⟨none, none, none, none, "int"⟩⟩ (some intThreeVal)
    [] none none none

/-- The field `count` carrying `countVal`. -/
def countField : CueField := .mk ⟨"count", false, .ordinary⟩ countVal

/-- A visible, annotated, string-kind root declaration list. -/
def c2VisibleDecls : List CueField :=
  [.mk ⟨"#Conn", false, .ordinary⟩
    (.mk ⟨[⟨"odin", ["ext"]⟩], [], .string, .noOp, "", [], ⟨none, none, none, none, "string"⟩⟩
      none [] none none none)]

/-! ## Helper lemmas about the tree constructors -/

@[simp]
theorem setType_type (f : SchemaField) (t : String) : (f.setType t).type = t := by
  cases f
  rfl

@[simp]
theorem setType_children (f : SchemaField) (t : String) :
    (f.setType t).children = f.children := by
  cases f
  rfl

@[simp]
theorem setType_default (f : SchemaField) (t : String) :
    (f.setType t).default = f.default := by
  cases f
  rfl

@[simp]
theorem setDefault_type (f : SchemaField) (s : String) : (f.setDefault s).type = f.type := by
  cases f
  rfl

@[simp]
theorem setDefault_children (f : SchemaField) (s : String) :
    (f.setDefault s).children = f.children := by
  cases f
  rfl

@[simp]
theorem setDefault_default (f : SchemaField) (s : String) :
    (f.setDefault s).default = s := by
  cases f
  rfl

@[simp]
theorem setChildren_children (f : SchemaField) (cs : List SchemaField) :
    (f.setChildren cs).children = cs := by
  cases f
  rfl

@[simp]
theorem setChildren_type (f : SchemaField) (cs : List SchemaField) :
    (f.setChildren cs).type = f.type := by
  cases f
  rfl

@[simp]
theorem mkField_type (n d t : String) (o r p : Bool) (df : String) (cs : List SchemaField) :
    (SchemaField.mk n d t o r p df cs).type = t := rfl

@[simp]
theorem mkField_children (n d t : String) (o r p : Bool) (df : String)
    (cs : List SchemaField) : (SchemaField.mk n d t o r p df cs).children = cs := rfl

@[simp]
theorem mkField_default (n d t : String) (o r p : Bool) (df : String)
    (cs : List SchemaField) : (SchemaField.mk n d t o r p df cs).default = df := rfl

@[simp]
theorem mkField_name (n d t : String) (o r p : Bool) (df : String)
    (cs : List SchemaField) : (SchemaField.mk n d t o r p df cs).name = n := rfl

/-! ## Claim theorems: resolver scenarios -/

/-- Claim C3: on the candidate list pkgA:#Widget, pkgB:#Widget, pkgC:#Gadget,
the query "widget" is ambiguous between the two Widgets, "gadget" resolves to
pkgC:#Gadget, "pkgB.Widget" resolves to pkgB:#Widget through the dotted rule,
and "nonexistent" fails listing all three candidates. -/
theorem c3_resolver_scenarios :
    ResolveReference "widget" resolverCandidates =
      .error ("ambiguous reference \"widget\" matches multiple templates:\n  pkgA.Widget (pkgA)\n  pkgB.Widget (pkgB)") ∧
    ResolveReference "gadget" resolverCandidates = .ok tmplGadgetC ∧
    ResolveReference "pkgB.Widget" resolverCandidates = .ok tmplWidgetB ∧
    ResolveReference "nonexistent" resolverCandidates =
      .error ("no component template matching \"nonexistent\"; available: pkgA.Widget, pkgB.Widget, pkgC.Gadget") := by
  refine ⟨?_, ?_, ?_, ?_⟩ <;> rfl

/-! ## Claim theorems: walker failure semantics -/

/-- Claim C9: a value whose struct-field iterator reports an error is walked
to the empty result; the walker is a total function and signals no error. -/
theorem c9_not_introspectable_empty (v : CueValue) (e : Bool)
    (h : v.fieldsOpt = none) : WalkSchema v e = [] := by
  cases v with
  | mk m d ea fo po dfo =>
    cases fo with
    | none => simp [WalkSchema, walkFields]
    | some fs => simp [CueValue.fieldsOpt] at h

/-- Claim C9 witness: the walker on a concrete non-iterable value. -/
theorem c9_witness : WalkSchema notIterableVal true = [] :=
  c9_not_introspectable_empty notIterableVal true rfl

/-! ## Claim theorems: disjunction rendering -/

/-- Claim C6: a field whose value is a disjunction with at least one branch
gets the branch renderings joined by a bar as its type, and no children,
independently of the expand flag. -/
theorem c6_disjunction_type (fd : CueField) (e : Bool)
    (hop : fd.value.op = .orOp) (hargs : fd.value.exprArgs ≠ []) :
    (fieldFromIter fd e).type = goJoin " | " (fd.value.exprArgs.map formatValue) ∧
    (fieldFromIter fd e).children = [] := by
  cases fd with
  | mk fm v =>
    simp only [CueField.value] at hop hargs
    simp only [fieldFromIter, populateFieldValue]
    have hcond : (v.op == CueOp.orOp && !v.exprArgs.isEmpty) = true := by
      simp [hop, List.isEmpty_iff, hargs]
    rw [if_pos hcond]
    cases hv : v.dflt <;>
      simp [formatDisjunction, CueField.value]

/-- Claim C6 witness: the disjunction "dev" | "staging" | "prod" walks, for
both expand flags, to the quoted branches joined by bars and no children. -/
theorem c6_witness :
    ((fieldFromIter envField false).type = "\"dev\" | \"staging\" | \"prod\"" ∧
      (fieldFromIter envField false).children = []) ∧
    ((fieldFromIter envField true).type = "\"dev\" | \"staging\" | \"prod\"" ∧
      (fieldFromIter envField true).children = []) := by
  have h1 := c6_disjunction_type envField false rfl (by simp [envField, envVal,
    CueField.value, CueValue.exprArgs])
  have h2 := c6_disjunction_type envField true rfl (by simp [envField, envVal,
    CueField.value, CueValue.exprArgs])
  refine ⟨⟨?_, h1.2⟩, ?_, h2.2⟩
  · rw [h1.1]; rfl
  · rw [h2.1]; rfl

/-! ## Claim theorems: unification with a definition reference -/

/-- Claim C10: with the expand flag off, a struct value that is a unification
containing a definition reference (and is not itself a pure reference)
collapses exactly like a pure reference: the type is the definition's name
found among the unification operands, and no children are produced. -/
theorem c10_unification_collapses (fd : CueField) (n : String)
    (hk : fd.value.kind = .struct)
    (hop : fd.value.op = .andOp)
    (hpure : fd.value.refPathStr = "")
    (hfind : findDefRefInArgs fd.value.exprArgs = some n) :
    (fieldFromIter fd false).type = n ∧ (fieldFromIter fd false).children = [] := by
  cases fd with
  | mk fm v =>
    simp only [CueField.value] at hk hop hpure hfind
    have hdrn : definitionRefName v = some n := by
      rw [definitionRefName]
      have hrb : refBase v = none := by simp [refBase, hpure]
      simp [hrb, hop, hfind]
    simp only [fieldFromIter, populateFieldValue]
    have hcond : (v.op == CueOp.orOp && !v.exprArgs.isEmpty) = false := by
      simp [hop]
    rw [if_neg (by simp [hcond])]
    have hcond2 : (!false && v.kind == CueKind.struct && (definitionRefName v).isSome) = true := by
      simp [hk, hdrn]
    rw [if_pos hcond2]
    cases hv : v.dflt <;> simp [hdrn]

/-- Claim C10 witness: the field store: _#Foo & \x7b name: string \x7d with
expand off gets type _#Foo and no children, although its value has visible
fields. -/
theorem c10_witness :
    (fieldFromIter unifiedField false).type = "_#Foo" ∧
    (fieldFromIter unifiedField false).children = [] :=
  c10_unification_collapses unifiedField "_#Foo" rfl rfl rfl rfl

/-! ## Claim theorems: private declarations -/

/-- The declaration body assignment never changes the declaration's name. -/
theorem declBody_name (d : Declaration) (v : CueValue) (e : Bool) :
    (declBody d v e).name = d.name := by
  simp only [declBody]
  split
  · split
    · rfl
    · split <;> rfl
  · split <;> rfl

/-- A surfaced declaration comes from a non-private, `@odin`-annotated entry
and keeps that entry's name. -/
theorem walkDecl_some (fd : CueField) (e : Bool) (d : Declaration)
    (h : walkDecl fd e = some d) :
    goHasPre fd.selString "_#" = false ∧ (findOdin fd.value.attrs).isSome = true ∧
      d.name = fd.selString := by
  simp only [walkDecl] at h
  by_cases hp : goHasPre fd.selString "_#"
  · simp [hp] at h
  · rw [if_neg (by simp [hp])] at h
    cases hfo : findOdin fd.value.attrs with
    | none => rw [hfo] at h; exact absurd h (by simp)
    | some a =>
      rw [hfo] at h
      dsimp only at h
      cases hc : declCategory a with
      | none => rw [hc] at h; exact absurd h (by simp)
      | some cat =>
        rw [hc] at h
        dsimp only at h
        have hd := Option.some_inj.mp h
        refine ⟨by simpa using hp, by simp [hfo], ?_⟩
        rw [← hd, declBody_name]

/-- Claim C2 counterexample: a root declaration named `_#Secret` carrying
`@odin(ref)` is nevertheless dropped by the declaration scanner. -/
theorem c2_counterexample : WalkDeclarations c2Pkg false = [] := rfl

/-- Claim C2 as amended: a root declaration whose name has the private `_#`
prefix is always skipped, annotated or not; every surfaced declaration stems
from a non-private entry that carries the `@odin` attribute. -/
theorem c2_no_private_decls (ds : List CueField) (e : Bool) (d : Declaration)
    (hmem : d ∈ walkDecls ds e) :
    goHasPre d.name "_#" = false ∧
      ∃ fd, fd ∈ ds ∧ fd.selString = d.name ∧ (findOdin fd.value.attrs).isSome = true := by
  induction ds with
  | nil => simp [walkDecls] at hmem
  | cons fd rest ih =>
    rw [walkDecls] at hmem
    cases hw : walkDecl fd e with
    | none =>
      rw [hw] at hmem
      rcases ih hmem with ⟨h1, fd2, hm2, h2, h3⟩
      exact ⟨h1, fd2, List.mem_cons_of_mem _ hm2, h2, h3⟩
    | some d0 =>
      rw [hw] at hmem
      rcases List.mem_cons.mp hmem with heq | hmem2
      · subst heq
        obtain ⟨hp, ho, hn⟩ := walkDecl_some fd e d hw
        refine ⟨?_, fd, List.mem_cons_self _ _, hn.symm, ho⟩
        rw [hn]; exact hp
      · rcases ih hmem2 with ⟨h1, fd2, hm2, h2, h3⟩
        exact ⟨h1, fd2, List.mem_cons_of_mem _ hm2, h2, h3⟩

/-- Claim C2 witness: the scanner surfaces the annotated `#Conn` declaration,
whose name is not private and whose source entry carries `@odin`. -/
theorem c2_witness :
    goHasPre (Declaration.mk "#Conn" "" .ext "string" []).name "_#" = false ∧
      ∃ fd, fd ∈ c2VisibleDecls ∧
        fd.selString = (Declaration.mk "#Conn" "" .ext "string" []).name ∧
        (findOdin fd.value.attrs).isSome = true :=
  c2_no_private_decls c2VisibleDecls false (Declaration.mk "#Conn" "" .ext "string" [])
    (by exact List.mem_cons_self _ _)

/-! ## Non-emptiness of the literal renderings -/

/-- A string built from a non-empty character list is not the empty string. -/
theorem mkStr_ne_empty (c : Char) (l : List Char) : (⟨c :: l⟩ : String) ≠ "" := by
  intro h
  exact List.noConfusion (congrArg String.data h)

/-- A string built from a list known to be non-empty is not empty. -/
theorem mkStr_ne_empty_of (l : List Char) (h : l ≠ []) : (⟨l⟩ : String) ≠ "" := by
  cases l with
  | nil => exact absurd rfl h
  | cons c r => exact mkStr_ne_empty c r

/-- The quoted rendering of a string is never empty. -/
theorem goQuote_ne_empty (s : String) : goQuote s ≠ "" := mkStr_ne_empty _ _

/-- The boolean rendering is never empty. -/
theorem goBoolStr_ne_empty (b : Bool) : goBoolStr b ≠ "" := by
  cases b <;> simp [goBoolStr]

/-- The decimal digit accumulator never returns an empty list. -/
theorem natDigitsAux_ne_nil (n : Nat) (acc : List Char) : natDigitsAux n acc ≠ [] := by
  induction n using Nat.strong_induction_on generalizing acc with
  | _ n ih =>
    rw [natDigitsAux]
    split
    · simp
    · exact ih (n / 10) (Nat.div_lt_self (by omega) (by omega)) _

/-- The integer rendering is never empty. -/
theorem goIntStr_ne_empty (i : Int) : goIntStr i ≠ "" := by
  rw [goIntStr]
  split
  · exact mkStr_ne_empty _ _
  · exact mkStr_ne_empty_of _ (natDigitsAux_ne_nil _ _)

/-- Under meta well-formedness, the literal rendering of a value is never
the empty string. -/
theorem formatValue_ne_empty (v : CueValue) (h : wfMeta v.meta = true) :
    formatValue v ≠ "" := by
  rw [wfMeta] at h
  simp only [Bool.and_eq_true, bne_iff_ne, ne_eq] at h
  obtain ⟨⟨⟨hs, hf⟩, _⟩, _⟩ := h
  rw [formatValue]
  simp only [CueValue.kind, CueValue.lit]
  cases hk : v.meta.kind with
  | string =>
    cases v.meta.lit.strVal with
    | none => exact hs
    | some s => exact goQuote_ne_empty s
  | bool =>
    cases v.meta.lit.boolVal with
    | none => exact hs
    | some b => exact goBoolStr_ne_empty b
  | int =>
    cases v.meta.lit.intVal with
    | none => exact hs
    | some i => exact goIntStr_ne_empty i
  | float =>
    cases hfr : v.meta.lit.floatRepr with
    | none => exact hs
    | some r =>
      rw [hfr] at hf
      simpa using hf
  | number => exact hs
  | bytes => exact hs
  | null => exact hs
  | struct => exact hs
  | list => exact hs
  | bottom => exact hs
  | other r => exact hs

/-! ## Claim theorems: defaults on primitive fields -/

/-- Claim C8 counterexample: the field enabled: bool or-default true has a
primitive (boolean) incomplete kind and a concrete default, yet its type is
the rendered disjunction, not the primitive display name. -/
theorem c8_counterexample :
    isPrimitiveKind enabledField.value.kind = true ∧
    (enabledField.value.dflt).isSome = true ∧
    fieldFromIter enabledField false =
      SchemaField.mk "enabled" "" "bool | true" false false false "true" [] ∧
    ("bool | true" : String) ≠ formatKind enabledField.value.kind := by
  refine ⟨rfl, rfl, ?_, by decide⟩
  simp only [enabledField, enabledVal, fieldFromIter, populateFieldValue]
  rfl

/-- Claim C8 as amended: a field with a concrete default and a primitive
structural kind, whose value is not a disjunction, carries simultaneously a
non-empty default and the primitive kind's display name as its type. -/
theorem c8_default_and_type (fd : CueField) (e : Bool) (dv : CueValue)
    (hd : fd.value.dflt = some dv) (hwf : wfMeta dv.meta = true)
    (hk : isPrimitiveKind fd.value.kind = true)
    (hnd : fd.value.op ≠ .orOp ∨ fd.value.exprArgs = []) :
    (fieldFromIter fd e).default ≠ "" ∧
      (fieldFromIter fd e).type = formatKind fd.value.kind := by
  cases fd with
  | mk fm v =>
    simp only [CueField.value] at hd hk hnd ⊢
    simp only [fieldFromIter, populateFieldValue, hd]
    have hcond : (v.op == CueOp.orOp && !v.exprArgs.isEmpty) = false := by
      rcases hnd with h | h
      · simp [h]
      · simp [h]
    rw [if_neg (by simp [hcond])]
    have hks : (v.kind == CueKind.struct) = false := by
      cases hkk : v.kind <;> simp_all [isPrimitiveKind]
    have hkl : (v.kind == CueKind.list) = false := by
      cases hkk : v.kind <;> simp_all [isPrimitiveKind]
    rw [if_neg (by simp [hks]), if_neg (by simp [hks]), if_neg (by simp [hkl])]
    exact ⟨by simpa using formatValue_ne_empty dv hwf, by simp⟩

/-- Claim C8 witness: the field count with kind int and concrete default 3
gets default "3" (non-empty) and type "int" simultaneously. -/
theorem c8_witness :
    (fieldFromIter countField false).default ≠ "" ∧
      (fieldFromIter countField false).type = formatKind countField.value.kind :=
  c8_default_and_type countField false intThreeVal rfl rfl rfl (Or.inl (by decide))

/-! ## Claim theorems: the force-expand annotation -/

/-- Claim C1 divergence: with the global expand flag off, a field that is a
named-definition reference carrying the local `@odin(expand)` attribute is
still collapsed to the reference name with no children, and a declaration
carrying `@odin(expand)` is likewise collapsed: the walker consults no
force-expand attribute anywhere. -/
theorem c1_forced_expand_still_collapsed :
    WalkSchema c1Config false =
      [SchemaField.mk "forcedRef" "" "_#SecretStoreRef" false false false "" []] ∧
    WalkDeclarations c1Component false =
      [⟨"#forcedDecl", "", .ref, "_#SecretStoreRef", []⟩] := by
  constructor
  · rw [WalkSchema]
    rw [show c1Config = CueValue.mk ⟨[], [], .struct, .noOp, "", [],
        ⟨none, none, none, none, "cfg"⟩⟩ none []
        (some [CueField.mk ⟨"forcedRef", false, .ordinary⟩ forcedRefVal]) (some []) none
      from rfl]
    simp only [walkFields, walkRegular, walkPatterns, fieldFromIter, populateFieldValue]
    rfl
  · rfl

/-! ## Hidden-field erasure leaves the walk unchanged -/

/-- Erasure keeps the non-recursive observations of a value. -/
theorem eraseHidden_meta (v : CueValue) : (eraseHidden v).meta = v.meta := by
  cases v with
  | mk m d ea fo po dfo => simp only [eraseHidden, CueValue.meta]

/-- Erasure maps the default value pointwise. -/
theorem eraseHidden_dflt (v : CueValue) : (eraseHidden v).dflt = eraseHiddenOpt v.dflt := by
  cases v with
  | mk m d ea fo po dfo => simp only [eraseHidden, CueValue.dflt]

/-- Erasure maps the expression arguments pointwise. -/
theorem eraseHidden_exprArgs (v : CueValue) :
    (eraseHidden v).exprArgs = eraseHiddenArgs v.exprArgs := by
  cases v with
  | mk m d ea fo po dfo => simp only [eraseHidden, CueValue.exprArgs]

/-- Erasure commutes with the regular-fields iterator. -/
theorem eraseHidden_fieldsOpt (v : CueValue) :
    (eraseHidden v).fieldsOpt = eraseHiddenFieldsOpt v.fieldsOpt := by
  cases v with
  | mk m d ea fo po dfo => simp only [eraseHidden, CueValue.fieldsOpt]

/-- Erasure keeps the structural kind. -/
theorem eraseHidden_kind (v : CueValue) : (eraseHidden v).kind = v.kind := by
  rw [CueValue.kind, CueValue.kind, eraseHidden_meta]

/-- Erasure keeps the expression operator. -/
theorem eraseHidden_op (v : CueValue) : (eraseHidden v).op = v.op := by
  rw [CueValue.op, CueValue.op, eraseHidden_meta]

/-- Erasure keeps the attributes, hence hiddenness. -/
theorem hasOdinHidden_erase (v : CueValue) :
    hasOdinHidden (eraseHidden v) = hasOdinHidden v := by
  rw [hasOdinHidden, hasOdinHidden, CueValue.attrs, CueValue.attrs, eraseHidden_meta]

/-- Erasure keeps the doc comments. -/
theorem eraseHidden_docs (v : CueValue) : (eraseHidden v).docs = v.docs := by
  rw [CueValue.docs, CueValue.docs, eraseHidden_meta]

/-- Erasure keeps the literal rendering. -/
theorem formatValue_erase (v : CueValue) : formatValue (eraseHidden v) = formatValue v := by
  rw [formatValue, formatValue, CueValue.kind, CueValue.kind, CueValue.lit, CueValue.lit,
    eraseHidden_meta]

/-- Erasure keeps the reference-path readouts. -/
theorem refBase_erase (v : CueValue) : refBase (eraseHidden v) = refBase v := by
  rw [refBase, refBase, CueValue.refPathStr, CueValue.refPathStr, CueValue.refSels,
    CueValue.refSels, eraseHidden_meta]

/-- Erasure keeps the reference found among unification operands. -/
theorem findDefRefInArgs_erase (l : List CueValue) :
    findDefRefInArgs (eraseHiddenArgs l) = findDefRefInArgs l := by
  induction l with
  | nil => rfl
  | cons a r ih =>
    rw [eraseHiddenArgs, findDefRefInArgs, findDefRefInArgs, refBase_erase, ih]

/-- Erasure keeps the extracted definition-reference name. -/
theorem definitionRefName_erase (v : CueValue) :
    definitionRefName (eraseHidden v) = definitionRefName v := by
  rw [definitionRefName, definitionRefName, refBase_erase, eraseHidden_op,
    eraseHidden_exprArgs, findDefRefInArgs_erase]

/-- Erasure keeps the rendered disjunction. -/
theorem formatDisjunction_erase (l : List CueValue) :
    formatDisjunction (eraseHiddenArgs l) = formatDisjunction l := by
  rw [formatDisjunction, formatDisjunction]
  congr 1
  induction l with
  | nil => rfl
  | cons a r ih => rw [eraseHiddenArgs, List.map, List.map, formatValue_erase, ih]

/-- Erasure keeps emptiness of the argument list. -/
theorem eraseHiddenArgs_isEmpty (l : List CueValue) :
    (eraseHiddenArgs l).isEmpty = l.isEmpty := by
  cases l with
  | nil => rfl
  | cons a r => rw [eraseHiddenArgs]; rfl

mutual
/-- Walking a value equals walking the value with every hidden field removed
at every depth. -/
theorem walkFields_erase (v : CueValue) (e : Bool) :
    walkFields (eraseHidden v) e = walkFields v e := by
  cases v with
  | mk m d ea fo po dfo =>
    simp only [eraseHidden]
    cases fo with
    | none => simp only [eraseHiddenFieldsOpt, walkFields]
    | some fs =>
      have hreg := walkRegular_erase fs e
      cases po with
      | none => simp only [eraseHiddenFieldsOpt, walkFields, hreg]
      | some ps =>
        have hpat := walkPatterns_erase ps e
        simp only [eraseHiddenFieldsOpt, walkFields, hreg, hpat]
termination_by (sizeOf v, 0)

/-- Erasure leaves the regular-field loop unchanged. -/
theorem walkRegular_erase (fs : List CueField) (e : Bool) :
    walkRegular (eraseHiddenFields fs) e = walkRegular fs e := by
  cases fs with
  | nil => simp only [eraseHiddenFields]
  | cons fd rest =>
    cases fd with
    | mk fm v =>
      have hrest := walkRegular_erase rest e
      by_cases hh : hasOdinHidden v
      · simp [eraseHiddenFields, hh, hrest, walkRegular, CueField.value]
      · have hfi := fieldFromIter_erase fm v e
        simp [eraseHiddenFields, hh, walkRegular, CueField.value, hasOdinHidden_erase,
          hfi, hrest]
termination_by (sizeOf fs, 3)

/-- Erasure leaves the pattern-constraint loop unchanged. -/
theorem walkPatterns_erase (fs : List CueField) (e : Bool) :
    walkPatterns (eraseHiddenFields fs) e = walkPatterns fs e := by
  cases fs with
  | nil => simp only [eraseHiddenFields]
  | cons fd rest =>
    cases fd with
    | mk fm v =>
      have hrest := walkPatterns_erase rest e
      by_cases hh : hasOdinHidden v
      · simp [eraseHiddenFields, hh, hrest, walkPatterns]
      · have hpop := populate_erase (.mk fm.selString "" "" false false true "" []) v e
        simp [eraseHiddenFields, hh, walkPatterns, hasOdinHidden_erase, hpop, hrest]
termination_by (sizeOf fs, 3)

/-- Erasure leaves a single walked field unchanged. -/
theorem fieldFromIter_erase (fm : FMeta) (v : CueValue) (e : Bool) :
    fieldFromIter (.mk fm (eraseHidden v)) e = fieldFromIter (.mk fm v) e := by
  have hpop := populate_erase
    (.mk (trimMarks fm.selString) (joinDocs v.docs) "" fm.isOpt
      (fm.constraint = .required) false "" []) v e
  simp only [fieldFromIter, eraseHidden_docs, hpop]
termination_by (sizeOf v, 2)

/-- Erasure leaves the value description of a node unchanged. -/
theorem populate_erase (f : SchemaField) (v : CueValue) (e : Bool) :
    populateFieldValue f (eraseHidden v) e = populateFieldValue f v e := by
  have hwalk := walkFields_erase v e
  simp only [populateFieldValue, eraseHidden_dflt, eraseHidden_exprArgs, eraseHidden_op,
    eraseHidden_kind, definitionRefName_erase, formatDisjunction_erase,
    eraseHiddenArgs_isEmpty, formatListType, hwalk]
  cases v.dflt with
  | none => simp only [eraseHiddenOpt]
  | some dv => simp only [eraseHiddenOpt, formatValue_erase]
termination_by (sizeOf v, 1)
end

/-- Claim C4: no field or pattern constraint carrying the hidden attribute
contributes to the walker's tree at any depth — walking a value gives the
same tree as walking the value with every hidden entry removed. -/
theorem c4_hidden_never_appears (v : CueValue) (e : Bool) :
    walkFields v e = walkFields (eraseHidden v) e :=
  (walkFields_erase v e).symm

/-! ## The leaf-or-children invariant -/

/-- Data of a string append. -/
theorem strApp_data (a b : String) : (a ++ b).data = a.data ++ b.data := by
  cases a with
  | mk la =>
    cases b with
    | mk lb => rfl

/-- An append whose left part is non-empty is non-empty. -/
theorem strApp_ne_empty_left (a b : String) (h : a ≠ "") : a ++ b ≠ "" := by
  intro hc
  apply h
  have hd := congrArg String.data hc
  rw [strApp_data] at hd
  have hone : a.data = [] := by
    cases hal : a.data with
    | nil => rfl
    | cons x xs => rw [hal] at hd; simp at hd
  exact String.ext hone

/-- A join of non-empty strings over a non-empty list is non-empty. -/
theorem goJoin_ne_empty (sep : String) (l : List String) (hl : l ≠ [])
    (h : ∀ s ∈ l, s ≠ "") : goJoin sep l ≠ "" := by
  cases l with
  | nil => exact absurd rfl hl
  | cons s rest =>
    cases rest with
    | nil => exact h s (by simp)
    | cons s2 r2 =>
      simp only [goJoin]
      exact strApp_ne_empty_left _ _ (strApp_ne_empty_left _ _ (h s (by simp)))

/-- Unpacking recursive well-formedness at a constructor. -/
theorem wfVal_parts (m : VMeta) (d : Option CueValue) (ea : List CueValue)
    (fo po dfo : Option (List CueField)) (h : wfVal (.mk m d ea fo po dfo) = true) :
    wfMeta m = true ∧ wfValOpt d = true ∧ wfValList ea = true ∧ wfFieldsOpt fo = true ∧
      wfFieldsOpt po = true ∧ wfFieldsOpt dfo = true := by
  rw [wfVal] at h
  simp only [Bool.and_eq_true] at h
  exact ⟨h.1.1.1.1.1, h.1.1.1.1.2, h.1.1.1.2, h.1.1.2, h.1.2, h.2⟩

/-- A well-formed value has well-formed meta data. -/
theorem wfVal_meta (v : CueValue) (h : wfVal v = true) : wfMeta v.meta = true := by
  cases v with
  | mk m d ea fo po dfo => exact (wfVal_parts m d ea fo po dfo h).1

/-- A well-formed value has well-formed expression arguments. -/
theorem wfVal_exprArgs (v : CueValue) (h : wfVal v = true) :
    wfValList v.exprArgs = true := by
  cases v with
  | mk m d ea fo po dfo => exact (wfVal_parts m d ea fo po dfo h).2.2.1

/-- Members of a well-formed value list are well-formed. -/
theorem wfValList_mem (l : List CueValue) (h : wfValList l = true) (v : CueValue)
    (hv : v ∈ l) : wfVal v = true := by
  induction l with
  | nil => simp at hv
  | cons a r ih =>
    rw [wfValList] at h
    simp only [Bool.and_eq_true] at h
    rcases List.mem_cons.mp hv with rfl | hv2
    · exact h.1
    · exact ih h.2 hv2

/-- Unpacking well-formedness of a field-list head. -/
theorem wfFields_head (fm : FMeta) (v : CueValue) (r : List CueField)
    (h : wfFields (.mk fm v :: r) = true) : wfVal v = true ∧ wfFields r = true := by
  rw [wfFields] at h
  simpa [Bool.and_eq_true] using h

/-- A reference selector found through `refBase` is non-empty under meta
well-formedness. -/
theorem refBase_ne_empty (v : CueValue) (hm : wfMeta v.meta = true) (n : String)
    (h : refBase v = some n) : n ≠ "" := by
  rw [wfMeta] at hm
  simp only [Bool.and_eq_true] at hm
  have hsel := hm.1.2
  rw [refBase] at h
  by_cases hp : v.refPathStr ≠ ""
  · rw [if_pos hp] at h
    cases hgl : v.refSels.getLast? with
    | none => rw [hgl] at h; simp at h
    | some s =>
      rw [hgl] at h
      dsimp only at h
      by_cases hd : s.isDef = true
      · rw [if_pos hd] at h
        have hmem : s ∈ v.refSels := List.mem_of_mem_getLast? hgl
        have hne := List.all_eq_true.mp hsel s hmem
        have hsn : n = s.selStr := by simpa using h.symm
        rw [hsn]
        simpa using hne
      · rw [if_neg hd] at h
        simp at h
  · rw [if_neg hp] at h
    simp at h

/-- A reference found among the unification operands is non-empty under
list well-formedness. -/
theorem findDefRef_ne_empty (l : List CueValue) (hl : wfValList l = true) (n : String)
    (h : findDefRefInArgs l = some n) : n ≠ "" := by
  induction l with
  | nil => rw [findDefRefInArgs] at h; exact absurd h (by simp)
  | cons a r ih =>
    rw [wfValList] at hl
    simp only [Bool.and_eq_true] at hl
    rw [findDefRefInArgs] at h
    cases hrb : refBase a with
    | some m =>
      rw [hrb] at h
      dsimp only at h
      have hm := Option.some_inj.mp h
      exact hm ▸ refBase_ne_empty a (wfVal_meta a hl.1) m hrb
    | none =>
      rw [hrb] at h
      dsimp only at h
      exact ih hl.2 h

/-- A definition-reference name extracted from a well-formed value is
non-empty. -/
theorem definitionRefName_ne_empty (v : CueValue) (hwf : wfVal v = true) (n : String)
    (h : definitionRefName v = some n) : n ≠ "" := by
  rw [definitionRefName] at h
  cases hrb : refBase v with
  | some m =>
    rw [hrb] at h
    dsimp only at h
    have hm := Option.some_inj.mp h
    exact hm ▸ refBase_ne_empty v (wfVal_meta v hwf) m hrb
  | none =>
    rw [hrb] at h
    dsimp only at h
    by_cases hop : (v.op == CueOp.andOp) = true
    · rw [if_pos hop] at h
      exact findDefRef_ne_empty v.exprArgs (wfVal_exprArgs v hwf) n h
    · rw [if_neg hop] at h
      simp at h

/-- The kind display name is non-empty when the kind rendering is. -/
theorem formatKind_ne_empty (k : CueKind)
    (h : (match k with | CueKind.other r => r != "" | _ => true) = true) :
    formatKind k ≠ "" := by
  cases k with
  | other r =>
    simp only [bne_iff_ne, ne_eq] at h
    simpa [formatKind, cueKindString] using h
  | string => decide
  | bool => decide
  | int => decide
  | float => decide
  | number => decide
  | bytes => decide
  | null => decide
  | struct => decide
  | list => decide
  | bottom => decide

/-- A node that keeps empty children and gets a non-empty type satisfies the
invariant. -/
theorem fieldOk_leaf (f : SchemaField) (t : String) (hch : f.children = [])
    (ht : t ≠ "") : fieldOk (f.setType t) = true := by
  cases f with
  | mk n d ty o r p df cs =>
    simp only [mkField_children] at hch
    subst hch
    simp [SchemaField.setType, fieldOk, fieldsOk, ht]

/-- A node with empty type and a non-empty, valid children list satisfies the
invariant. -/
theorem fieldOk_parent (f : SchemaField) (cs : List SchemaField) (hty : f.type = "")
    (hcs : cs.isEmpty = false) (hok : fieldsOk cs = true) :
    fieldOk (f.setChildren cs) = true := by
  cases f with
  | mk n d ty o r p df cs0 =>
    simp only [mkField_type] at hty
    subst hty
    simp [SchemaField.setChildren, fieldOk, hcs, hok]

/-- The invariant over an appended list. -/
theorem fieldsOk_append (a b : List SchemaField) :
    fieldsOk (a ++ b) = (fieldsOk a && fieldsOk b) := by
  induction a with
  | nil => simp [fieldsOk]
  | cons f r ih => simp [fieldsOk, ih, Bool.and_assoc]

mutual
/-- Every node of a walk over a well-formed value satisfies the
leaf-or-children invariant. -/
theorem walkFields_ok (v : CueValue) (e : Bool) (hwf : wfVal v = true) :
    fieldsOk (walkFields v e) = true := by
  cases v with
  | mk m d ea fo po dfo =>
    obtain ⟨hm, hd, hea, hfo, hpo, hdfo⟩ := wfVal_parts m d ea fo po dfo hwf
    cases fo with
    | none => simp [walkFields, fieldsOk]
    | some fs =>
      rw [wfFieldsOpt] at hfo
      have hreg := walkRegular_ok fs e hfo
      cases po with
      | none => simp [walkFields, fieldsOk_append, hreg, fieldsOk]
      | some ps =>
        rw [wfFieldsOpt] at hpo
        have hpat := walkPatterns_ok ps e hpo
        simp [walkFields, fieldsOk_append, hreg, hpat]
termination_by (sizeOf v, 0)

/-- The invariant over the regular-field loop. -/
theorem walkRegular_ok (fs : List CueField) (e : Bool) (hwf : wfFields fs = true) :
    fieldsOk (walkRegular fs e) = true := by
  cases fs with
  | nil => simp [walkRegular, fieldsOk]
  | cons fd rest =>
    cases fd with
    | mk fm v =>
      obtain ⟨hv, hrest⟩ := wfFields_head fm v rest hwf
      have hr := walkRegular_ok rest e hrest
      by_cases hh : hasOdinHidden v
      · simp [walkRegular, CueField.value, hh, hr]
      · have hfi := fieldFromIter_ok fm v e hv
        simp [walkRegular, CueField.value, hh, fieldsOk, hfi, hr]
termination_by (sizeOf fs, 3)

/-- The invariant over the pattern-constraint loop. -/
theorem walkPatterns_ok (fs : List CueField) (e : Bool) (hwf : wfFields fs = true) :
    fieldsOk (walkPatterns fs e) = true := by
  cases fs with
  | nil => simp [walkPatterns, fieldsOk]
  | cons fd rest =>
    cases fd with
    | mk fm v =>
      obtain ⟨hv, hrest⟩ := wfFields_head fm v rest hwf
      have hr := walkPatterns_ok rest e hrest
      by_cases hc : fm.constraint = ConstraintKind.pattern
      · by_cases hh : hasOdinHidden v
        · simp [walkPatterns, hc, hh, hr]
        · have hpop := populate_ok (.mk fm.selString "" "" false false true "" []) v e
            rfl rfl hv
          simp [walkPatterns, hc, hh, fieldsOk, hpop, hr]
      · simp [walkPatterns, hc, hr]
termination_by (sizeOf fs, 3)

/-- The invariant at one walked field. -/
theorem fieldFromIter_ok (fm : FMeta) (v : CueValue) (e : Bool) (hv : wfVal v = true) :
    fieldOk (fieldFromIter (.mk fm v) e) = true := by
  have hpop := populate_ok (.mk (trimMarks fm.selString) (joinDocs v.docs) "" fm.isOpt
    (fm.constraint = .required) false "" []) v e rfl rfl hv
  simp only [fieldFromIter]
  exact hpop
termination_by (sizeOf v, 2)

/-- The invariant after filling in the value description of a node that
starts with an empty type and no children. -/
theorem populate_ok (f : SchemaField) (v : CueValue) (e : Bool)
    (hty : f.type = "") (hch : f.children = []) (hwf : wfVal v = true) :
    fieldOk (populateFieldValue f v e) = true := by
  have hm := wfVal_meta v hwf
  simp only [populateFieldValue]
  generalize hf1 : (match v.dflt with
    | some dv => f.setDefault (formatValue dv)
    | none => f) = f1
  have hf1ty : f1.type = "" := by
    rw [← hf1]; cases v.dflt <;> simp [hty]
  have hf1ch : f1.children = [] := by
    rw [← hf1]; cases v.dflt <;> simp [hch]
  by_cases h1 : (v.op == CueOp.orOp && !v.exprArgs.isEmpty) = true
  · rw [if_pos h1]
    rw [Bool.and_eq_true] at h1
    obtain ⟨hop, hne⟩ := h1
    have hargsne : v.exprArgs ≠ [] := by
      intro hcn; rw [hcn] at hne; simp at hne
    apply fieldOk_leaf f1 _ hf1ch
    rw [formatDisjunction]
    apply goJoin_ne_empty
    · simp [hargsne]
    · intro s hs
      rcases List.mem_map.mp hs with ⟨a, ha, rfl⟩
      exact formatValue_ne_empty a (wfVal_meta a (wfValList_mem _ (wfVal_exprArgs v hwf) a ha))
  · rw [if_neg h1]
    by_cases h2 : (!e && v.kind == CueKind.struct && (definitionRefName v).isSome) = true
    · rw [if_pos h2]
      have hsome : (definitionRefName v).isSome = true := by
        simp only [Bool.and_eq_true] at h2
        exact h2.2
      cases hdn : definitionRefName v with
      | none => rw [hdn] at hsome; simp at hsome
      | some n =>
        apply fieldOk_leaf f1 _ hf1ch
        simpa using definitionRefName_ne_empty v hwf n hdn
    · rw [if_neg h2]
      by_cases h3 : (v.kind == CueKind.struct) = true
      · rw [if_pos h3]
        have hcs := walkFields_ok v e hwf
        by_cases h4 : (walkFields v e).isEmpty = true
        · rw [if_neg (by simp [h4])]
          exact fieldOk_leaf f1 _ hf1ch (by decide)
        · rw [if_pos (by simp [Bool.not_eq_true] at h4 ⊢; exact h4)]
          exact fieldOk_parent f1 _ hf1ty (by simpa using h4) hcs
      · rw [if_neg h3]
        by_cases h5 : (v.kind == CueKind.list) = true
        · rw [if_pos h5]
          exact fieldOk_leaf f1 _ hf1ch (by rw [formatListType]; decide)
        · rw [if_neg h5]
          apply fieldOk_leaf f1 _ hf1ch
          apply formatKind_ne_empty
          rw [wfMeta] at hm
          simp only [Bool.and_eq_true] at hm
          exact hm.2
termination_by (sizeOf v, 1)
end

/-- Claim C7: every field produced by the walker over a well-formed value
has exactly one of a non-empty children list and a non-empty type string,
recursively; an empty struct recursion yields the open-struct marker as the
type, not children. -/
theorem c7_leaf_xor_children (v : CueValue) (e : Bool) (hwf : wfVal v = true) :
    fieldsOk (WalkSchema v e) = true :=
  walkFields_ok v e hwf

/-- Claim C7 witness: the invariant evaluated on a concrete struct with a
plain field, a hidden field and a pattern constraint. -/
theorem c7_witness :
    wfVal wfSampleVal = true ∧ fieldsOk (WalkSchema wfSampleVal false) = true := by
  have hwf : wfVal wfSampleVal = true := by
    simp only [wfSampleVal, strKindVal, wfVal, wfValOpt, wfValList, wfFieldsOpt, wfFields,
      wfMeta]
    rfl
  exact ⟨hwf, c7_leaf_xor_children wfSampleVal false hwf⟩

/-! ## Claim theorems: resolver error priority -/

/-- Claim C5: when resolution of a non-fully-qualified query fails, a
multi-match of the bare-definition-name rule is reported as ambiguous with
those candidates; a multi-match of the package-shorthand rule is reported
only when the name rule matched nothing; and when neither rule matched
anything the not-found error lists every candidate. -/
theorem c5_error_priority (reference : String) (templates : List ComponentTemplate)
    (e : String)
    (hne : templates ≠ [])
    (hfq : goContains reference ":#" = false)
    (herr : ResolveReference reference templates = .error e) :
    (1 < (defNameMatches reference templates).length →
      e = ambiguousError reference (defNameMatches reference templates)) ∧
    (defNameMatches reference templates = [] →
      1 < (pkgShorthandMatches reference templates).length →
      e = ambiguousError reference (pkgShorthandMatches reference templates)) ∧
    (defNameMatches reference templates = [] →
      pkgShorthandMatches reference templates = [] →
      e = notFoundError reference templates) := by
  have hnemp : templates.isEmpty = false := by
    cases templates with
    | nil => exact absurd rfl hne
    | cons a b => rfl
  simp only [ResolveReference] at herr
  rw [if_neg (by simp [hnemp])] at herr
  rw [if_neg (by simp [hfq])] at herr
  cases hdm : defNameMatches reference templates with
  | nil =>
    rw [hdm] at herr
    dsimp only at herr
    cases hpm : pkgShorthandMatches reference templates with
    | nil =>
      rw [hpm] at herr
      dsimp only at herr
      cases hdot : dotMatch reference templates with
      | some t => rw [hdot] at herr; simp at herr
      | none =>
        rw [hdot] at herr
        dsimp only at herr
        simp at herr
        refine ⟨?_, ?_, ?_⟩
        · intro h; simp at h
        · intro _ h; simp at h
        · intro _ _; exact herr.symm
    | cons p1 ps =>
      cases ps with
      | nil => rw [hpm] at herr; dsimp only at herr; simp at herr
      | cons p2 ps2 =>
        rw [hpm] at herr
        dsimp only at herr
        cases hdot : dotMatch reference templates with
        | some t => rw [hdot] at herr; simp at herr
        | none =>
          rw [hdot] at herr
          dsimp only at herr
          simp at herr
          refine ⟨?_, ?_, ?_⟩
          · intro h; simp at h
          · intro _ _; exact herr.symm
          · intro _ hc; simp at hc
  | cons d1 ds =>
    cases ds with
    | nil => rw [hdm] at herr; dsimp only at herr; simp at herr
    | cons d2 ds2 =>
      rw [hdm] at herr
      dsimp only at herr
      cases hpm : pkgShorthandMatches reference templates with
      | nil =>
        rw [hpm] at herr
        dsimp only at herr
        cases hdot : dotMatch reference templates with
        | some t => rw [hdot] at herr; simp at herr
        | none =>
          rw [hdot] at herr
          dsimp only at herr
          simp at herr
          refine ⟨?_, ?_, ?_⟩
          · intro _; exact herr.symm
          · intro hc; simp at hc
          · intro hc; simp at hc
      | cons p1 ps =>
        cases ps with
        | nil => rw [hpm] at herr; dsimp only at herr; simp at herr
        | cons p2 ps2 =>
          rw [hpm] at herr
          dsimp only at herr
          cases hdot : dotMatch reference templates with
          | some t => rw [hdot] at herr; simp at herr
          | none =>
            rw [hdot] at herr
            dsimp only at herr
            simp at herr
            refine ⟨?_, ?_, ?_⟩
            · intro _; exact herr.symm
            · intro hc; simp at hc
            · intro hc; simp at hc

/-- Claim C5 witness: the error priority evaluated at the ambiguous query
"widget" over the three spec candidates. -/
theorem c5_witness :
    (1 < (defNameMatches "widget" resolverCandidates).length →
      "ambiguous reference \"widget\" matches multiple templates:\n  pkgA.Widget (pkgA)\n  pkgB.Widget (pkgB)" =
        ambiguousError "widget" (defNameMatches "widget" resolverCandidates)) ∧
    (defNameMatches "widget" resolverCandidates = [] →
      1 < (pkgShorthandMatches "widget" resolverCandidates).length →
      "ambiguous reference \"widget\" matches multiple templates:\n  pkgA.Widget (pkgA)\n  pkgB.Widget (pkgB)" =
        ambiguousError "widget" (pkgShorthandMatches "widget" resolverCandidates)) ∧
    (defNameMatches "widget" resolverCandidates = [] →
      pkgShorthandMatches "widget" resolverCandidates = [] →
      "ambiguous reference \"widget\" matches multiple templates:\n  pkgA.Widget (pkgA)\n  pkgB.Widget (pkgB)" =
        notFoundError "widget" resolverCandidates) :=
  c5_error_priority "widget" resolverCandidates
    "ambiguous reference \"widget\" matches multiple templates:\n  pkgA.Widget (pkgA)\n  pkgB.Widget (pkgB)"
    (by simp [resolverCandidates]) rfl rfl
